import Mathlib

/-!
Shallow embedding of the task-lifecycle engine of the
`agentic-profile/a2a-service` repository (files `src/service/service.ts`,
`src/service/utils.ts`, `src/storage/memory-store.ts`), together with
theorems settling the frozen claims about it.

Modelling conventions:
* Machine time (`getCurrentTimestamp`, an ISO string of the wall clock) is
  modelled by an abstract `Nat` clock passed in and incremented once per
  handler-loop iteration; only the fact that the applier stamps "now" matters.
* JavaScript objects with optional fields are modelled by `Option`.  Where the
  source distinguishes an *absent* key from a key holding `null`
  (object-spread semantics, e.g. `message: null` in a status update), the
  field is `Option (Option _)`: `none` = key absent, `some none` = key
  present holding null.
* JavaScript truthiness tests on strings (`if (update.name)`,
  `if (update.description)`) are modelled by "present and nonempty";
  truthiness of `update.append` by `= some true`; truthiness of an object
  (`if (update.metadata)`) by `isSome`.
* `Array.prototype.sort` (stable since ES2019) with comparator
  `(a.index ?? 0) - (b.index ?? 0)` is modelled by a stable insertion sort
  on the key `index ?? 0`; for a total preorder key every stable sort
  computes the same list.
* Metadata records (`Record<string, unknown>`) are association lists of
  string pairs; object spread `{...a, ...b}` is `mergeMeta a b`.
* Deep copies (`JSON.parse(JSON.stringify(..))`) and shallow copies are
  identities on immutable Lean values.
-/

namespace A2A

/-- Message role, `"user" | "agent"`. -/
inductive Role where
  | user
  | agent
deriving DecidableEq, Inhabited

/-- A content part; its inner structure is irrelevant to the engine, so it is
an opaque wrapper of a string. -/
structure Part where
  text : String
deriving DecidableEq, Inhabited

/-- `Message { role, parts }` from the A2A schema. -/
structure Message where
  role : Role
  parts : List Part
deriving DecidableEq, Inhabited

/-- The closed `TaskState` enumeration. -/
inductive TaskState where
  | submitted
  | working
  | inputRequired
  | completed
  | failed
  | canceled
deriving DecidableEq, Inhabited

/-- Opaque metadata record `Record<string, unknown>`, as an association list. -/
abbrev Meta : Type := List (String × String)

/-- `TaskStatus`: state, optional last agent message, server-assigned
timestamp (modelled as a `Nat` clock value). -/
structure TaskStatus where
  state : TaskState
  message : Option Message
  timestamp : Nat
deriving DecidableEq, Inhabited

/-- `Artifact` from the A2A schema: optional index, optional name, parts,
optional append/lastChunk flags, optional description and metadata. -/
structure Artifact where
  index : Option Nat
  name : Option String
  parts : List Part
  append : Option Bool
  lastChunk : Option Bool
  description : Option String
  metadata : Option Meta
deriving DecidableEq, Inhabited

/-- `Task`: id, optional session id, status, optional artifact array,
optional metadata. -/
structure Task where
  id : String
  sessionId : Option String
  status : TaskStatus
  artifacts : Option (List Artifact)
  metadata : Option Meta
deriving DecidableEq, Inhabited

/-- `TaskAndHistory`, the atomic unit of persistence (storage/models.ts). -/
structure TaskAndHistory where
  task : Task
  history : List Message
deriving DecidableEq, Inhabited

/-- A value yielded by a task handler.  The source discriminates these purely
by shape (duck typing), so the model is a single record of optional fields
covering both the status-update shape and the artifact shape.  `message` is
`Option (Option Message)` because the source distinguishes an absent
`message` key from `message: null` under object spread.  `timestamp` models a
caller-supplied timestamp property that object spread would carry along. -/
structure UpdateValue where
  state : Option TaskState
  message : Option (Option Message)
  timestamp : Option Nat
  parts : Option (List Part)
  index : Option Nat
  append : Option Bool
  name : Option String
  lastChunk : Option Bool
  description : Option String
  metadata : Option Meta
deriving DecidableEq, Inhabited

/-- The all-absent update record, for building concrete updates. -/
def emptyUpdate : UpdateValue :=
  { state := none, message := none, timestamp := none, parts := none,
    index := none, append := none, name := none, lastChunk := none,
    description := none, metadata := none }

/-- utils.ts `isTaskStatusUpdate`: has a `state` field and no `parts` field. -/
def isTaskStatusUpdate (u : UpdateValue) : Bool :=
  u.state.isSome && u.parts.isNone

/-- utils.ts `isArtifactUpdate`: has a `parts` field. -/
def isArtifactUpdate (u : UpdateValue) : Bool :=
  u.parts.isSome

/-- JavaScript string truthiness: present and nonempty. -/
def strTruthy : Option String → Bool
  | some s => s != ""
  | none => false

/-- Object spread `{...a, ...b}` on metadata records: keys of `a` in order
with values overridden by `b` where `b` has the key, then keys of `b` not in
`a`, in order. -/
def mergeMeta (a b : Meta) : Meta :=
  (List.map (fun p =>
      match List.find? (fun q => q.1 == p.1) b with
      | some q => q
      | none => p) a)
    ++ List.filter (fun q => (List.find? (fun p => p.1 == q.1) a).isNone) b

/-- Metadata lookup (first entry wins, as JS object keys are unique in
practice). -/
def lookupMeta (k : String) (m : Meta) : Option String :=
  (List.find? (fun p => p.1 == k) m).map (fun p => p.2)

/-- The artifact obtained by spreading an update value, `{ ...update }`. -/
def artifactOfUpdate (u : UpdateValue) : Artifact :=
  { index := u.index, name := u.name, parts := u.parts.getD [],
    append := u.append, lastChunk := u.lastChunk,
    description := u.description, metadata := u.metadata }

/-- service.ts lines 521-533: deep-copy the existing artifact, push the
update's parts, merge metadata (update wins), overwrite `lastChunk` when the
update has the key and `description` when the update's value is truthy. -/
def appendArtifactMerge (old : Artifact) (u : UpdateValue) : Artifact :=
  { old with
    parts := old.parts ++ u.parts.getD [],
    metadata :=
      match u.metadata with
      | some m => some (mergeMeta (old.metadata.getD []) m)
      | none => old.metadata,
    lastChunk :=
      match u.lastChunk with
      | some b => some b
      | none => old.lastChunk,
    description :=
      if strTruthy u.description then u.description else old.description }

/-- Sort key `(a.index ?? 0)` of the comparator at service.ts line 554. -/
def idxKey (a : Artifact) : Nat := a.index.getD 0

/-- Stable insertion of one artifact into a list ordered by `idxKey`; the new
element lands after existing elements of equal key. -/
def insertByKey (a : Artifact) : List Artifact → List Artifact
  | [] => [a]
  | b :: bs => if idxKey a < idxKey b then a :: b :: bs else b :: insertByKey a bs

/-- Stable sort by `idxKey`, modelling `artifacts.sort((a, b) =>
(a.index ?? 0) - (b.index ?? 0))` (ES2019 stable sort). -/
def sortByIndex (l : List Artifact) : List Artifact :=
  l.foldl (fun acc a => insertByKey a acc) []

/-- service.ts lines 550-556: push the update as a new artifact, then sort by
index when any artifact carries one. -/
def pushAndSort (arts : List Artifact) (u : UpdateValue) : List Artifact :=
  let arts2 := arts ++ [artifactOfUpdate u]
  if arts2.any (fun a => a.index.isSome) then sortByIndex arts2 else arts2

/-- service.ts lines 540-548: the `else if (update.name)` fallback — replace
the first artifact of equal name by a copy of the update, else push. -/
def applyArtifactByName (arts : List Artifact) (u : UpdateValue) : List Artifact :=
  match u.name with
  | some nm =>
    if nm != "" then
      match List.findIdx? (fun a => a.name == some nm) arts with
      | some j => arts.set j (artifactOfUpdate u)
      | none => pushAndSort arts u
    else pushAndSort arts u
  | none => pushAndSort arts u

/-- service.ts lines 514-556, the artifact branch of the update applier:
index-in-bounds slot takes precedence (append-merge or replace), else name
match (always replace), else push-and-sort. -/
def applyArtifactUpdate (arts : List Artifact) (u : UpdateValue) : List Artifact :=
  match u.index with
  | some i =>
    match arts[i]? with
    | some old =>
      if u.append = some true then arts.set i (appendArtifactMerge old u)
      else arts.set i (artifactOfUpdate u)
    | none => applyArtifactByName arts u
  | none => applyArtifactByName arts u

/-- service.ts `applyUpdateToTaskAndHistory` (lines 487-560): pure update
applier.  `now` is the clock value `getCurrentTimestamp()` would observe. -/
def applyUpdateToTaskAndHistory (now : Nat) (current : TaskAndHistory)
    (u : UpdateValue) : TaskAndHistory :=
  if isTaskStatusUpdate u then
    let newStatus : TaskStatus :=
      { state := u.state.getD current.task.status.state,
        message :=
          match u.message with
          | none => current.task.status.message
          | some x => x,
        timestamp := now }
    let newHistory :=
      match u.message with
      | some (some m) =>
        if m.role = Role.agent then current.history ++ [m] else current.history
      | _ => current.history
    { task := { current.task with status := newStatus }, history := newHistory }
  else if isArtifactUpdate u then
    let arts := current.task.artifacts.getD []
    { task := { current.task with artifacts := some (applyArtifactUpdate arts u) },
      history := current.history }
  else
    current

/-- Terminal task states (service.ts lines 452 and 597-601). -/
def terminalStates : List TaskState :=
  [TaskState.completed, TaskState.failed, TaskState.canceled]

/-- The "final-eligible" states of the streaming handler (service.ts lines
287-292 and 332-337): terminal states plus `input-required`. -/
def finalEligible (s : TaskState) : Bool :=
  decide (s ∈ [TaskState.completed, TaskState.failed, TaskState.canceled,
    TaskState.inputRequired])

/-- service.ts `loadOrCreateTaskAndHistory` (lines 563-643), with the store
interaction abstracted: `existing` is what `taskStore.loadTask` returned; the
function's result is what gets saved and returned.  `now` is the clock. -/
def loadOrCreateTaskAndHistory (now : Nat) (taskId : String)
    (initialMessage : Message) (sessionId : Option String)
    (metadata : Option Meta) (existing : Option TaskAndHistory) :
    TaskAndHistory :=
  match existing with
  | none =>
    { task :=
        { id := taskId, sessionId := sessionId,
          status :=
            { state := TaskState.submitted, timestamp := now, message := none },
          artifacts := some [], metadata := metadata },
      history := [initialMessage] }
  | some d0 =>
    let d : TaskAndHistory :=
      { task := d0.task, history := d0.history ++ [initialMessage] }
    if d.task.status.state ∈ terminalStates then
      applyUpdateToTaskAndHistory now d
        { emptyUpdate with
          state := some TaskState.submitted, message := some none }
    else if d.task.status.state = TaskState.inputRequired then
      applyUpdateToTaskAndHistory now d
        { emptyUpdate with state := some TaskState.working }
    else
      d

/-- The synthetic `failed` status update built when a handler's sequence
raises an error (service.ts lines 209-224 and 364-379): the error's text is
embedded in an agent message. -/
def failedUpdate (errText : String) : UpdateValue :=
  { emptyUpdate with
    state := some TaskState.failed,
    message := some (some
      { role := Role.agent,
        parts := [{ text := "Handler failed: " ++ errText }] }) }

/-- How a handler invocation ends: the lazy sequence completes, or raises an
error (whose text is recorded). -/
inductive HandlerOutcome where
  | done
  | errored (errText : String)
deriving DecidableEq, Inhabited

/-- A handler run as observed by the engine: the updates it yields in order,
then how the sequence ends.  An error raised mid-sequence is the run whose
`yields` are the updates delivered before the error. -/
structure HandlerRun where
  yields : List UpdateValue
  outcome : HandlerOutcome
deriving DecidableEq, Inhabited

/-- The `tasks/send` update-driving loop (service.ts lines 199-206): apply
each yield in order, persisting after each; the clock ticks once per
iteration.  Returns the clock after the loop and the last persisted data. -/
def runSendLoop : Nat → TaskAndHistory → List UpdateValue → Nat × TaskAndHistory
  | now, data, [] => (now, data)
  | now, data, u :: rest =>
    runSendLoop (now + 1) (applyUpdateToTaskAndHistory now data u) rest

/-- Outcome of `tasks/send`: the JSON-RPC result (`ok` carries the task only,
`error` the propagated handler error text) and the last successfully
persisted `TaskAndHistory`. -/
structure SendOutcome where
  result : Except String Task
  persisted : TaskAndHistory
deriving Inhabited

/-- service.ts `handleTaskSend` (lines 188-243), store abstracted: drive the
run's yields; on success answer with the final task; on handler error apply
the synthetic `failed` update, attempt to persist it (`saveOk` says whether
that save succeeds; a failure leaves the previous persisted state), and
propagate the original error. -/
def handleTaskSend (now : Nat) (data0 : TaskAndHistory) (run : HandlerRun)
    (saveOk : Bool) : SendOutcome :=
  let r := runSendLoop now data0 run.yields
  match run.outcome with
  | HandlerOutcome.done => { result := Except.ok r.2.task, persisted := r.2 }
  | HandlerOutcome.errored errText =>
    let dataF := applyUpdateToTaskAndHistory r.1 r.2 (failedUpdate errText)
    { result := Except.error errText,
      persisted := if saveOk then dataF else r.2 }

/-- A server-sent event of the streaming handler: a JSON-RPC success
envelope wrapping `TaskStatusUpdateEvent {id, status, final}` or
`TaskArtifactUpdateEvent {id, artifact, final}`. -/
inductive SSEEvent where
  | statusEv (id : String) (status : TaskStatus) (final : Bool)
  | artifactEv (id : String) (artifact : Artifact) (final : Bool)
deriving DecidableEq, Inhabited

/-- The `final` flag of an emitted event. -/
def eventFinal : SSEEvent → Bool
  | SSEEvent.statusEv _ _ f => f
  | SSEEvent.artifactEv _ _ f => f

/-- Result of the streaming for-await loop: events sent, data after the last
applied yield, whether the loop broke at a final status event, clock after
the loop. -/
structure StreamStep where
  events : List SSEEvent
  data : TaskAndHistory
  broke : Bool
  clock : Nat
deriving DecidableEq, Inhabited

/-- The `tasks/sendSubscribe` for-await loop (service.ts lines 272-324):
apply and persist every yield; status yields emit a status event whose
`final` flag is computed from the updated state and break the loop when
final; artifact yields emit a non-final artifact event carrying the merged
artifact found in the new snapshot (`?? yieldValue` fallback); unclassified
yields emit nothing. -/
def streamLoop (taskId : String) : Nat → TaskAndHistory → List UpdateValue →
    StreamStep
  | now, data, [] => { events := [], data := data, broke := false, clock := now }
  | now, data, u :: rest =>
    let data2 := applyUpdateToTaskAndHistory now data u
    if isTaskStatusUpdate u then
      let isF := finalEligible data2.task.status.state
      let ev := SSEEvent.statusEv taskId data2.task.status isF
      if isF then
        { events := [ev], data := data2, broke := true, clock := now + 1 }
      else
        let s := streamLoop taskId (now + 1) data2 rest
        { s with events := ev :: s.events }
    else if isArtifactUpdate u then
      let upd := ((data2.task.artifacts.getD []).find? (fun a =>
        (a.index.isSome && a.index == u.index)
          || (strTruthy a.name && a.name == u.name))).getD (artifactOfUpdate u)
      let ev := SSEEvent.artifactEv taskId upd false
      let s := streamLoop taskId (now + 1) data2 rest
      { s with events := ev :: s.events }
    else
      streamLoop taskId (now + 1) data2 rest

/-- service.ts `handleTaskSendSubscribe` (lines 245-410), store and SSE
transport abstracted: returns the full event sequence written to the stream
and the final persisted data.  After a natural loop end without a final
event, a synthetic final status event is sent, forcing state `completed`
first when the current state is not final-eligible; a handler error applies
and persists the synthetic `failed` update and ends the stream with one
final status event. -/
def handleTaskSendSubscribe (taskId : String) (now : Nat)
    (data0 : TaskAndHistory) (run : HandlerRun) :
    List SSEEvent × TaskAndHistory :=
  let s := streamLoop taskId now data0 run.yields
  if s.broke then (s.events, s.data)
  else
    match run.outcome with
    | HandlerOutcome.done =>
      if finalEligible s.data.task.status.state then
        (s.events ++ [SSEEvent.statusEv taskId s.data.task.status true], s.data)
      else
        let d2 := applyUpdateToTaskAndHistory s.clock s.data
          { emptyUpdate with state := some TaskState.completed }
        (s.events ++ [SSEEvent.statusEv taskId d2.task.status true], d2)
    | HandlerOutcome.errored errText =>
      let d2 := applyUpdateToTaskAndHistory s.clock s.data (failedUpdate errText)
      (s.events ++ [SSEEvent.statusEv taskId d2.task.status true], d2)

/-- The fixed cancellation update of service.ts lines 465-471. -/
def cancelUpdate : UpdateValue :=
  { emptyUpdate with
    state := some TaskState.canceled,
    message := some (some
      { role := Role.agent,
        parts := [{ text := "Task cancelled by request." }] }) }

/-- `Set.add`: the cancellation registry is a duplicate-free list. -/
def regAdd (reg : List String) (id : String) : List String :=
  if id ∈ reg then reg else reg ++ [id]

/-- `Set.delete`. -/
def regDelete (reg : List String) (id : String) : List String :=
  reg.filter (fun x => x != id)

/-- Outcome of `tasks/cancel`: the task answered to the caller, the saved
data when a save happened, the registry as visible to a polling handler
between the add and the save, and the registry once the request completed. -/
structure CancelOutcome where
  response : Task
  saved : Option TaskAndHistory
  registryDuring : List String
  registryAfter : List String
deriving DecidableEq, Inhabited

/-- service.ts `handleTaskCancel` (lines 433-482) on a task found in the
store: a terminal-state task is answered unchanged with no save and no
registry activity; otherwise the id is registered, the cancellation update
applied and persisted, the id removed, and the updated task answered. -/
def handleTaskCancel (now : Nat) (taskId : String) (data : TaskAndHistory)
    (reg : List String) : CancelOutcome :=
  if data.task.status.state ∈ terminalStates then
    { response := data.task, saved := none,
      registryDuring := reg, registryAfter := reg }
  else
    let reg2 := regAdd reg taskId
    let data2 := applyUpdateToTaskAndHistory now data cancelUpdate
    { response := data2.task, saved := some data2,
      registryDuring := reg2, registryAfter := regDelete reg2 taskId }

/-- memory-store.ts `createTaskKey` (lines 37-39). -/
def createTaskKey (taskId : String) (sessionId : Option String) : String :=
  sessionId.getD "" ++ ":" ++ taskId

/-- The in-memory map `Map<string, TaskAndHistory>`, as an association list
with unique keys; `set` replaces in place or appends. -/
abbrev MemStore : Type := List (String × TaskAndHistory)

/-- `Map.set`. -/
def storeSet (m : MemStore) (k : String) (v : TaskAndHistory) : MemStore :=
  if (List.any m (fun p => p.1 == k)) then
    List.map (fun p => if p.1 == k then (k, v) else p) m
  else m ++ [(k, v)]

/-- `Map.get`. -/
def storeGet (m : MemStore) (k : String) : Option TaskAndHistory :=
  (List.find? (fun p => p.1 == k) m).map (fun p => p.2)

/-- memory-store.ts `saveTask` (lines 50-58): keyed by the task's own id and
session id (`?? null`). -/
def saveTask (m : MemStore) (data : TaskAndHistory) : MemStore :=
  storeSet m (createTaskKey data.task.id data.task.sessionId) data

/-- memory-store.ts `loadTask` (lines 41-48). -/
def loadTask (m : MemStore) (taskId : String) (sessionId : Option String) :
    Option TaskAndHistory :=
  storeGet m (createTaskKey taskId sessionId)

/-! ### Concrete fixtures used by counterexamples and witnesses -/

/-- A content part holding the given text. -/
def samplePart (s : String) : Part := { text := s }

/-- A user message. -/
def sampleMsg : Message := { role := Role.user, parts := [samplePart "hi"] }

/-- An agent message. -/
def sampleAgentMsg : Message := { role := Role.agent, parts := [samplePart "ok"] }

/-- A freshly created task, as `loadOrCreateTaskAndHistory` would build it. -/
def sampleTask : Task :=
  { id := "t1", sessionId := none,
    status := { state := TaskState.submitted, message := none, timestamp := 0 },
    artifacts := some [], metadata := none }

/-- A fresh task-and-history pair. -/
def sampleData : TaskAndHistory := { task := sampleTask, history := [sampleMsg] }

/-- An artifact update carrying an explicit index and one part. -/
def idxUpdate (i : Nat) (s : String) : UpdateValue :=
  { emptyUpdate with index := some i, parts := some [samplePart s] }

/-- A status update to `working` carrying an agent message. -/
def agentStatusUpdate : UpdateValue :=
  { emptyUpdate with
    state := some TaskState.working,
    message := some (some sampleAgentMsg) }

/-- A status update to `working` that tries to smuggle in its own timestamp. -/
def timestampedUpdate : UpdateValue :=
  { emptyUpdate with state := some TaskState.working, timestamp := some 99 }

/-! ### Theorems -/

/-- **C5.** The Update Applier returns a new pair whose history equals the
input history with at most one message appended; a message is appended
exactly when the update is a status update carrying a present, non-null
message of role agent — so history never loses entries.  (Absence of
mutation is inherent in the embedding: the applier is a pure function of its
arguments.) -/
theorem c5_history_append_only (now : Nat) (data : TaskAndHistory)
    (u : UpdateValue) :
    (isTaskStatusUpdate u = true ∧ ∃ m : Message, u.message = some (some m) ∧
       m.role = Role.agent ∧
       (applyUpdateToTaskAndHistory now data u).history = data.history ++ [m])
    ∨ ((applyUpdateToTaskAndHistory now data u).history = data.history ∧
       ¬(isTaskStatusUpdate u = true ∧ ∃ m : Message,
           u.message = some (some m) ∧ m.role = Role.agent)) := by
  by_cases hs : isTaskStatusUpdate u = true
  · cases hm : u.message with
    | some x =>
      cases x with
      | some m =>
        by_cases hr : m.role = Role.agent
        · exact Or.inl ⟨hs, m, rfl, hr,
            by simp [applyUpdateToTaskAndHistory, hs, hm, hr]⟩
        · refine Or.inr ⟨by simp [applyUpdateToTaskAndHistory, hs, hm, hr], ?_⟩
          rintro ⟨-, m2, hm2, hr2⟩
          injection hm2 with h2
          injection h2 with h3
          exact hr (h3 ▸ hr2)
      | none =>
        refine Or.inr ⟨by simp [applyUpdateToTaskAndHistory, hs, hm], ?_⟩
        rintro ⟨-, m2, hm2, -⟩
        exact Option.noConfusion (Option.some.inj hm2)
    | none =>
      refine Or.inr ⟨by simp [applyUpdateToTaskAndHistory, hs, hm], ?_⟩
      rintro ⟨-, m2, hm2, -⟩
      exact Option.noConfusion hm2
  · refine Or.inr ⟨?_, fun h => hs h.1⟩
    by_cases ha : isArtifactUpdate u = true
    · simp [applyUpdateToTaskAndHistory, hs, ha]
    · simp [applyUpdateToTaskAndHistory, hs, ha]

/-- **C5 witness**: a status update carrying an agent message appends exactly
that message. -/
theorem c5_history_append_only_witness :
    (isTaskStatusUpdate agentStatusUpdate = true ∧
      ∃ m : Message, agentStatusUpdate.message = some (some m) ∧
        m.role = Role.agent ∧
        (applyUpdateToTaskAndHistory 1 sampleData agentStatusUpdate).history
          = sampleData.history ++ [m])
    ∨ ((applyUpdateToTaskAndHistory 1 sampleData agentStatusUpdate).history
          = sampleData.history ∧
       ¬(isTaskStatusUpdate agentStatusUpdate = true ∧
         ∃ m : Message, agentStatusUpdate.message = some (some m) ∧
           m.role = Role.agent)) :=
  c5_history_append_only 1 sampleData agentStatusUpdate

/-- **C6.** For every status update, the committed timestamp is the clock
value at the moment of application (the update's own `timestamp` field, if
any, is ignored), and the remaining status fields are the shallow merge of
the update over the existing status. -/
theorem c6_timestamp_server_assigned (now : Nat) (data : TaskAndHistory)
    (u : UpdateValue) (h : isTaskStatusUpdate u = true) :
    (applyUpdateToTaskAndHistory now data u).task.status.timestamp = now ∧
    (applyUpdateToTaskAndHistory now data u).task.status.state
      = u.state.getD data.task.status.state ∧
    (applyUpdateToTaskAndHistory now data u).task.status.message
      = (match u.message with
         | none => data.task.status.message
         | some x => x) := by
  refine ⟨?_, ?_, ?_⟩ <;> simp [applyUpdateToTaskAndHistory, h]

/-- **C6 witness**: an update that carries its own `timestamp := some 99`
still gets stamped with the clock value 5. -/
theorem c6_timestamp_server_assigned_witness :
    isTaskStatusUpdate timestampedUpdate = true ∧
    (applyUpdateToTaskAndHistory 5 sampleData
      timestampedUpdate).task.status.timestamp = 5 :=
  ⟨by decide,
    (c6_timestamp_server_assigned 5 sampleData timestampedUpdate (by decide)).1⟩

/-- **C10.** Frame conditions of the Update Applier: a status update leaves
id, sessionId, artifacts and task metadata unchanged; an artifact update
leaves status, id, sessionId, task metadata and the history unchanged; an
update satisfying neither classifier returns the input pair unchanged. -/
theorem c10_frame (now : Nat) (data : TaskAndHistory) (u : UpdateValue) :
    (isTaskStatusUpdate u = true →
      (applyUpdateToTaskAndHistory now data u).task.id = data.task.id ∧
      (applyUpdateToTaskAndHistory now data u).task.sessionId
        = data.task.sessionId ∧
      (applyUpdateToTaskAndHistory now data u).task.artifacts
        = data.task.artifacts ∧
      (applyUpdateToTaskAndHistory now data u).task.metadata
        = data.task.metadata) ∧
    (isArtifactUpdate u = true →
      (applyUpdateToTaskAndHistory now data u).task.status = data.task.status ∧
      (applyUpdateToTaskAndHistory now data u).task.id = data.task.id ∧
      (applyUpdateToTaskAndHistory now data u).task.sessionId
        = data.task.sessionId ∧
      (applyUpdateToTaskAndHistory now data u).task.metadata
        = data.task.metadata ∧
      (applyUpdateToTaskAndHistory now data u).history = data.history) ∧
    (isTaskStatusUpdate u = false → isArtifactUpdate u = false →
      applyUpdateToTaskAndHistory now data u = data) := by
  refine ⟨fun h => ?_, fun h => ?_, fun h1 h2 => ?_⟩
  · refine ⟨?_, ?_, ?_, ?_⟩ <;> simp [applyUpdateToTaskAndHistory, h]
  · obtain ⟨x, hx⟩ := Option.isSome_iff_exists.mp h
    have hs : isTaskStatusUpdate u = false := by
      simp [isTaskStatusUpdate, hx]
    refine ⟨?_, ?_, ?_, ?_, ?_⟩ <;> simp [applyUpdateToTaskAndHistory, hs, h]
  · simp [applyUpdateToTaskAndHistory, h1, h2]

/-- **C10 witness**: an artifact update leaves the status and history of a
concrete task unchanged. -/
theorem c10_frame_witness :
    isArtifactUpdate (idxUpdate 0 "x") = true ∧
    (applyUpdateToTaskAndHistory 2 sampleData (idxUpdate 0 "x")).task.status
      = sampleData.task.status ∧
    (applyUpdateToTaskAndHistory 2 sampleData (idxUpdate 0 "x")).history
      = sampleData.history :=
  ⟨by decide,
    ((c10_frame 2 sampleData (idxUpdate 0 "x")).2.1 (by decide)).1,
    ((c10_frame 2 sampleData (idxUpdate 0 "x")).2.1 (by decide)).2.2.2.2⟩

/-- **C4.** The Task Lifecycle Resolver: with no existing entry it produces a
task in state `submitted` with empty artifacts, no status message, and a
history holding exactly the initial message; on an existing entry it appends
the incoming message to history and applies exactly one transition —
terminal states reset to `submitted` with the status message cleared while
history keeps all prior entries, `input-required` moves to `working`, and
`working`/`submitted` leave the task unchanged. -/
theorem c4_lifecycle_resolver (now : Nat) (taskId : String) (msg : Message)
    (sessionId : Option String) (metadata : Option Meta)
    (existing : Option TaskAndHistory) :
    (existing = none →
      (loadOrCreateTaskAndHistory now taskId msg sessionId metadata
          existing).task.id = taskId ∧
      (loadOrCreateTaskAndHistory now taskId msg sessionId metadata
          existing).task.status.state = TaskState.submitted ∧
      (loadOrCreateTaskAndHistory now taskId msg sessionId metadata
          existing).task.status.message = none ∧
      (loadOrCreateTaskAndHistory now taskId msg sessionId metadata
          existing).task.artifacts = some [] ∧
      (loadOrCreateTaskAndHistory now taskId msg sessionId metadata
          existing).history = [msg]) ∧
    (∀ d, existing = some d →
      (loadOrCreateTaskAndHistory now taskId msg sessionId metadata
          existing).history = d.history ++ [msg] ∧
      (d.task.status.state ∈ terminalStates →
        (loadOrCreateTaskAndHistory now taskId msg sessionId metadata
            existing).task.status.state = TaskState.submitted ∧
        (loadOrCreateTaskAndHistory now taskId msg sessionId metadata
            existing).task.status.message = none) ∧
      (d.task.status.state = TaskState.inputRequired →
        (loadOrCreateTaskAndHistory now taskId msg sessionId metadata
            existing).task.status.state = TaskState.working) ∧
      ((d.task.status.state = TaskState.working ∨
          d.task.status.state = TaskState.submitted) →
        (loadOrCreateTaskAndHistory now taskId msg sessionId metadata
            existing).task = d.task)) := by
  constructor
  · rintro rfl
    simp [loadOrCreateTaskAndHistory]
  · rintro d rfl
    cases hstate : d.task.status.state <;>
      simp [loadOrCreateTaskAndHistory, applyUpdateToTaskAndHistory,
        isTaskStatusUpdate, emptyUpdate, terminalStates, hstate]

/-- **C4 witness**: re-submitting to a `completed` task resets it to
`submitted`, clears the status message, and keeps the old history. -/
theorem c4_lifecycle_resolver_witness :
    (({ task :=
          { sampleTask with
            status := { state := TaskState.completed,
                        message := some sampleAgentMsg, timestamp := 7 } },
        history := [sampleMsg, sampleAgentMsg] } : TaskAndHistory)).task.status.state
        ∈ terminalStates ∧
    (loadOrCreateTaskAndHistory 9 "t1" sampleMsg none none
        (some { task :=
                  { sampleTask with
                    status := { state := TaskState.completed,
                                message := some sampleAgentMsg, timestamp := 7 } },
                history := [sampleMsg, sampleAgentMsg] })).task.status.state
      = TaskState.submitted ∧
    (loadOrCreateTaskAndHistory 9 "t1" sampleMsg none none
        (some { task :=
                  { sampleTask with
                    status := { state := TaskState.completed,
                                message := some sampleAgentMsg, timestamp := 7 } },
                history := [sampleMsg, sampleAgentMsg] })).history
      = [sampleMsg, sampleAgentMsg] ++ [sampleMsg] := by
  refine ⟨by decide, ?_, ?_⟩
  · exact (((c4_lifecycle_resolver 9 "t1" sampleMsg none none _).2 _
      rfl).2.1 (by decide)).1
  · exact ((c4_lifecycle_resolver 9 "t1" sampleMsg none none _).2 _ rfl).1

/-- **C7.** `tasks/send` error handling: when the handler's sequence raises
an error, a synthetic `failed` status update embedding the error's text is
applied and persisted when the save succeeds (a save failure leaves the
previously persisted state and does not replace the original error), and the
original error is propagated; on normal completion only the final task
object is returned as the success result. -/
theorem c7_send_error_handling (now : Nat) (data0 : TaskAndHistory)
    (yields : List UpdateValue) (errText : String) (saveOk : Bool) :
    (handleTaskSend now data0
        { yields := yields, outcome := HandlerOutcome.errored errText }
        saveOk).result = Except.error errText ∧
    (saveOk = true →
      (handleTaskSend now data0
          { yields := yields, outcome := HandlerOutcome.errored errText }
          saveOk).persisted.task.status.state = TaskState.failed ∧
      (handleTaskSend now data0
          { yields := yields, outcome := HandlerOutcome.errored errText }
          saveOk).persisted.task.status.message
        = some { role := Role.agent,
                 parts := [{ text := "Handler failed: " ++ errText }] } ∧
      (handleTaskSend now data0
          { yields := yields, outcome := HandlerOutcome.errored errText }
          saveOk).persisted.history
        = (runSendLoop now data0 yields).2.history
            ++ [{ role := Role.agent,
                  parts := [{ text := "Handler failed: " ++ errText }] }]) ∧
    (saveOk = false →
      (handleTaskSend now data0
          { yields := yields, outcome := HandlerOutcome.errored errText }
          saveOk).persisted = (runSendLoop now data0 yields).2) ∧
    (handleTaskSend now data0
        { yields := yields, outcome := HandlerOutcome.done } saveOk).result
      = Except.ok (runSendLoop now data0 yields).2.task := by
  refine ⟨?_, fun hok => ?_, fun hko => ?_, ?_⟩
  · simp [handleTaskSend]
  · subst hok
    refine ⟨?_, ?_, ?_⟩ <;>
      simp [handleTaskSend, failedUpdate, applyUpdateToTaskAndHistory,
        isTaskStatusUpdate, emptyUpdate]
  · subst hko
    simp [handleTaskSend]
  · simp [handleTaskSend]

/-- **C7 witness**: a handler error with no yields propagates the error and
persists a `failed` status. -/
theorem c7_send_error_handling_witness :
    (handleTaskSend 0 sampleData
        { yields := [], outcome := HandlerOutcome.errored "boom" }
        true).result = Except.error "boom" ∧
    (handleTaskSend 0 sampleData
        { yields := [], outcome := HandlerOutcome.errored "boom" }
        true).persisted.task.status.state = TaskState.failed :=
  ⟨(c7_send_error_handling 0 sampleData [] "boom" true).1,
    ((c7_send_error_handling 0 sampleData [] "boom" true).2.1 rfl).1⟩

/-- **C8.** `tasks/cancel`: on a task in a terminal state the current task is
returned unchanged with no save and the Cancellation Registry untouched (the
id is never added); on any other state the id is registered while the
`canceled` update — carrying the fixed agent cancellation message — is
applied and persisted, after which the id is removed, the updated task is
returned, and the registry does not retain the id. -/
theorem c8_cancel (now : Nat) (taskId : String) (data : TaskAndHistory)
    (reg : List String) :
    (data.task.status.state ∈ terminalStates →
      (handleTaskCancel now taskId data reg).response = data.task ∧
      (handleTaskCancel now taskId data reg).saved = none ∧
      (handleTaskCancel now taskId data reg).registryDuring = reg ∧
      (handleTaskCancel now taskId data reg).registryAfter = reg) ∧
    (data.task.status.state ∉ terminalStates →
      taskId ∈ (handleTaskCancel now taskId data reg).registryDuring ∧
      (handleTaskCancel now taskId data reg).saved
        = some (applyUpdateToTaskAndHistory now data cancelUpdate) ∧
      (applyUpdateToTaskAndHistory now data cancelUpdate).task.status.state
        = TaskState.canceled ∧
      (applyUpdateToTaskAndHistory now data cancelUpdate).task.status.message
        = some { role := Role.agent,
                 parts := [{ text := "Task cancelled by request." }] } ∧
      (handleTaskCancel now taskId data reg).response
        = (applyUpdateToTaskAndHistory now data cancelUpdate).task ∧
      taskId ∉ (handleTaskCancel now taskId data reg).registryAfter) := by
  constructor
  · intro h
    refine ⟨?_, ?_, ?_, ?_⟩ <;> simp [handleTaskCancel, h]
  · intro h
    refine ⟨?_, ?_, ?_, ?_, ?_, ?_⟩
    · simp only [handleTaskCancel, if_neg h]
      unfold regAdd
      by_cases hx : taskId ∈ reg <;> simp [hx]
    · simp [handleTaskCancel, h]
    · simp [applyUpdateToTaskAndHistory, cancelUpdate, isTaskStatusUpdate,
        emptyUpdate]
    · simp [applyUpdateToTaskAndHistory, cancelUpdate, isTaskStatusUpdate,
        emptyUpdate]
    · simp [handleTaskCancel, h]
    · simp only [handleTaskCancel, if_neg h]
      unfold regDelete
      simp

/-- **C8 witness**: cancelling a `completed` task returns it unchanged and
leaves the registry alone; cancelling a `working` task registers, cancels,
and drops the id. -/
theorem c8_cancel_witness :
    (sampleData.task.status.state ∉ terminalStates) ∧
    "t1" ∈ (handleTaskCancel 4 "t1" sampleData ["other"]).registryDuring ∧
    "t1" ∉ (handleTaskCancel 4 "t1" sampleData ["other"]).registryAfter :=
  ⟨by decide,
    ((c8_cancel 4 "t1" sampleData ["other"]).2 (by decide)).1,
    ((c8_cancel 4 "t1" sampleData ["other"]).2 (by decide)).2.2.2.2.2⟩

/-- Decidable check that a list of artifacts is sorted ascending by the sort
key `index ?? 0`. -/
def sortedByIndex : List Artifact → Bool
  | [] => true
  | [_] => true
  | a :: b :: rest => decide (idxKey a ≤ idxKey b) && sortedByIndex (b :: rest)

theorem sortedByIndex_cons_iff (b : Artifact) (t : List Artifact) :
    sortedByIndex (b :: t) = true ↔
      ((∀ c, t.head? = some c → idxKey b ≤ idxKey c) ∧ sortedByIndex t = true) := by
  cases t with
  | nil => simp [sortedByIndex]
  | cons c cs =>
    rw [sortedByIndex, Bool.and_eq_true, decide_eq_true_iff]
    constructor
    · rintro ⟨h1, h2⟩
      exact ⟨fun c2 hc2 => by injection hc2 with hc2; exact hc2 ▸ h1, h2⟩
    · rintro ⟨h1, h2⟩
      exact ⟨h1 c rfl, h2⟩

theorem insertByKey_head (a : Artifact) (l : List Artifact) :
    (insertByKey a l).head? = some a ∨ (insertByKey a l).head? = l.head? := by
  cases l with
  | nil => exact Or.inl rfl
  | cons b bs =>
    by_cases h : idxKey a < idxKey b
    · exact Or.inl (by simp [insertByKey, h])
    · exact Or.inr (by simp [insertByKey, h])

theorem sortedByIndex_insertByKey (a : Artifact) (l : List Artifact)
    (h : sortedByIndex l = true) : sortedByIndex (insertByKey a l) = true := by
  induction l with
  | nil => rfl
  | cons b bs ih =>
    rw [sortedByIndex_cons_iff] at h
    by_cases hab : idxKey a < idxKey b
    · rw [insertByKey, if_pos hab, sortedByIndex_cons_iff]
      refine ⟨?_, (sortedByIndex_cons_iff b bs).mpr h⟩
      intro c hc
      injection hc with hc
      exact hc ▸ Nat.le_of_lt hab
    · have hba : idxKey b ≤ idxKey a := Nat.le_of_not_lt hab
      rw [insertByKey, if_neg hab, sortedByIndex_cons_iff]
      refine ⟨?_, ih h.2⟩
      intro c hc
      rcases insertByKey_head a bs with hh | hh
      · rw [hh] at hc
        injection hc with hc
        exact hc ▸ hba
      · rw [hh] at hc
        exact h.1 c hc

theorem sortedByIndex_foldl (l : List Artifact) (acc : List Artifact)
    (h : sortedByIndex acc = true) :
    sortedByIndex (List.foldl (fun acc a => insertByKey a acc) acc l) = true := by
  induction l generalizing acc with
  | nil => simpa using h
  | cons a as ih => exact ih _ (sortedByIndex_insertByKey a acc h)

theorem sortedByIndex_sortByIndex (l : List Artifact) :
    sortedByIndex (sortByIndex l) = true :=
  sortedByIndex_foldl l [] rfl

theorem sortedByIndex_pushAndSort (arts : List Artifact) (u : UpdateValue)
    (h : u.index.isSome = true) : sortedByIndex (pushAndSort arts u) = true := by
  have hany : (arts ++ [artifactOfUpdate u]).any (fun a => a.index.isSome) = true := by
    simp [artifactOfUpdate, h]
  simp only [pushAndSort, hany, if_true]
  exact sortedByIndex_sortByIndex _

/-- The update sequence with explicit indices 5, 7, 1 that leaves the
artifact list unsorted. -/
def c1Updates : List UpdateValue :=
  [idxUpdate 5 "a", idxUpdate 7 "b", idxUpdate 1 "c"]

/-- Two updates carrying the same explicit index 2. -/
def c1DupUpdates : List UpdateValue := [idxUpdate 2 "a", idxUpdate 2 "b"]

/-- **C1 counterexample.** Applying the updates with explicit indices
5, 7, 1 to a fresh task yields the artifact index sequence `[5, 1]` — not
sorted ascending (the in-bounds index 1 replaced the artifact at *position*
1 without re-sorting) — and applying two updates with explicit index 2
yields two artifacts with the same index, so the claimed invariant
(always sorted, one artifact per distinct index) is false. -/
theorem c1_counterexample :
    sortedByIndex
      ((runSendLoop 0 sampleData c1Updates).2.task.artifacts.getD []) = false ∧
    ((runSendLoop 0 sampleData c1DupUpdates).2.task.artifacts.getD []).map
        (fun a => a.index) = [some 2, some 2] :=
  ⟨by decide, by decide⟩

/-- The artifact branch either replaces one slot in place or takes the
push-and-sort path. -/
theorem applyArtifactUpdate_cases (arts : List Artifact) (u : UpdateValue) :
    (∃ i a, applyArtifactUpdate arts u = arts.set i a) ∨
    applyArtifactUpdate arts u = pushAndSort arts u := by
  rw [applyArtifactUpdate]
  split
  · split
    · split
      · exact Or.inl ⟨_, _, rfl⟩
      · exact Or.inl ⟨_, _, rfl⟩
    · rw [applyArtifactByName]
      split
      · split
        · split
          · exact Or.inl ⟨_, _, rfl⟩
          · exact Or.inr rfl
        · exact Or.inr rfl
      · exact Or.inr rfl
  · rw [applyArtifactByName]
    split
    · split
      · split
        · exact Or.inl ⟨_, _, rfl⟩
        · exact Or.inr rfl
      · exact Or.inr rfl
    · exact Or.inr rfl

/-- **C1 amended.** When an artifact update carrying an explicit index is
appended as a new artifact (no slot was resolved, observable as the artifact
sequence growing by one), the resulting sequence is sorted ascending by
index; the original claim's stronger guarantees — sortedness after in-bounds
positional replacement and uniqueness per distinct index — do not hold. -/
theorem c1_sorted_after_append (now : Nat) (data : TaskAndHistory)
    (u : UpdateValue) (h1 : isArtifactUpdate u = true)
    (h2 : u.index.isSome = true)
    (h3 : ((applyUpdateToTaskAndHistory now data u).task.artifacts.getD []).length
            = (data.task.artifacts.getD []).length + 1) :
    sortedByIndex
      ((applyUpdateToTaskAndHistory now data u).task.artifacts.getD []) = true := by
  obtain ⟨x, hx⟩ := Option.isSome_iff_exists.mp h1
  have hs : isTaskStatusUpdate u = false := by
    simp [isTaskStatusUpdate, hx]
  rw [applyUpdateToTaskAndHistory] at h3 ⊢
  simp only [hs, Bool.false_eq_true, if_false, isArtifactUpdate, hx,
    Option.isSome_some, if_true, Option.getD_some] at h3 ⊢
  rcases applyArtifactUpdate_cases (data.task.artifacts.getD []) u with
    ⟨i, a, heq⟩ | heq
  · rw [heq] at h3
    simp [List.length_set] at h3
  · rw [heq]
    exact sortedByIndex_pushAndSort _ _ h2

/-- **C1 amended witness**: appending an indexed update to a fresh task gives
a sorted (singleton) artifact sequence. -/
theorem c1_sorted_after_append_witness :
    isArtifactUpdate (idxUpdate 3 "z") = true ∧
    (idxUpdate 3 "z").index.isSome = true ∧
    ((applyUpdateToTaskAndHistory 0 sampleData
        (idxUpdate 3 "z")).task.artifacts.getD []).length
      = (sampleData.task.artifacts.getD []).length + 1 ∧
    sortedByIndex
      ((applyUpdateToTaskAndHistory 0 sampleData
        (idxUpdate 3 "z")).task.artifacts.getD []) = true :=
  ⟨by decide, by decide, by decide,
    c1_sorted_after_append 0 sampleData (idxUpdate 3 "z")
      (by decide) (by decide) (by decide)⟩

theorem find?_filter_of_impl {α : Type} (p q : α → Bool) (l : List α)
    (h : ∀ x, p x = true → q x = true) :
    (l.filter q).find? p = l.find? p := by
  induction l with
  | nil => rfl
  | cons a as ih =>
    by_cases hq : q a = true
    · rw [List.filter_cons_of_pos hq]
      by_cases hp : p a = true
      · rw [List.find?_cons_of_pos _ hp, List.find?_cons_of_pos _ hp]
      · rw [List.find?_cons_of_neg _ (by simp [hp]),
          List.find?_cons_of_neg _ (by simp [hp]), ih]
    · have hp : p a = false := by
        cases hpa : p a with
        | true => exact absurd (h a hpa) hq
        | false => rfl
      rw [List.filter_cons_of_neg (by simp [hq]),
        List.find?_cons_of_neg _ (by simp [hp]), ih]

theorem findIdx?_lt_length_aux {α : Type} (p : α → Bool) (l : List α) :
    ∀ (s j : Nat), List.findIdx? p l s = some j → j < s + l.length := by
  induction l with
  | nil =>
    intro s j h
    simp [List.findIdx?] at h
  | cons a as ih =>
    intro s j h
    rw [List.findIdx?_cons] at h
    by_cases hp : p a = true
    · rw [if_pos hp] at h
      injection h with h
      subst h
      simp only [List.length_cons]
      omega
    · rw [if_neg hp] at h
      have := ih (s + 1) j h
      simp only [List.length_cons]
      omega

theorem findIdx?_lt_length {α : Type} (p : α → Bool) (l : List α) (j : Nat)
    (h : l.findIdx? p = some j) : j < l.length := by
  have := findIdx?_lt_length_aux p l 0 j h
  omega

/-- Object spread `{...a, ...b}` makes the update win on key conflicts:
looking up any key in the merge gives `b`'s binding when present, else
`a`'s. -/
theorem mergeMeta_lookup (a b : Meta) (k : String) :
    lookupMeta k (mergeMeta a b) = (lookupMeta k b).or (lookupMeta k a) := by
  unfold mergeMeta lookupMeta
  rw [List.find?_append, List.find?_map]
  have hcomp : ((fun p : String × String => p.1 == k) ∘ (fun p =>
      match List.find? (fun q => q.1 == p.1) b with
      | some q => q
      | none => p)) = (fun p : String × String => p.1 == k) := by
    funext x
    simp only [Function.comp]
    cases hbx : List.find? (fun q => q.1 == x.1) b with
    | none => rfl
    | some q =>
      have hq : q.1 = x.1 := by
        simpa [beq_iff_eq] using List.find?_some hbx
      simp [hq]
  rw [hcomp]
  cases hfa : List.find? (fun p => p.1 == k) a with
  | some p0 =>
    have hp0 : p0.1 = k := by
      simpa [beq_iff_eq] using List.find?_some hfa
    have hbfun : (fun q : String × String => q.1 == p0.1)
        = (fun q : String × String => q.1 == k) := by rw [hp0]
    cases hfb : List.find? (fun p => p.1 == k) b with
    | some q0 => simp [hbfun, hfb]
    | none => simp [hbfun, hfb]
  | none =>
    have hfilter : (List.filter
        (fun q => (List.find? (fun p => p.1 == q.1) a).isNone) b).find?
          (fun p => p.1 == k)
        = b.find? (fun p => p.1 == k) := by
      apply find?_filter_of_impl
      intro x hx
      have hxk : x.1 = k := by simpa [beq_iff_eq] using hx
      have : (fun p : String × String => p.1 == x.1)
          = (fun p : String × String => p.1 == k) := by rw [hxk]
      rw [this, hfa]
      rfl
    rw [hfilter]
    cases hfb : List.find? (fun p => p.1 == k) b with
    | some q0 => simp
    | none => simp

/-- An artifact identified only by name. -/
def namedArtifact : Artifact :=
  { index := none, name := some "a", parts := [samplePart "p1"], append := none,
    lastChunk := none, description := none, metadata := none }

/-- A task holding one named artifact. -/
def namedData : TaskAndHistory :=
  { task := { sampleTask with artifacts := some [namedArtifact] },
    history := [] }

/-- An artifact update with `append = true` that resolves its slot by name
only. -/
def appendByNameUpdate : UpdateValue :=
  { emptyUpdate with
    name := some "a",
    parts := some [samplePart "p2"],
    append := some true }

/-- **C2 counterexample.** An update with `append = true` whose slot is
resolved by *name* does not get the claimed deep-copy-and-concatenate
treatment: the code replaces the named slot outright, so the resulting parts
are `["p2"]`, not the concatenation `["p1", "p2"]`. -/
theorem c2_counterexample :
    appendByNameUpdate.append = some true ∧
    namedArtifact.name = appendByNameUpdate.name ∧
    ((applyUpdateToTaskAndHistory 0 namedData
        appendByNameUpdate).task.artifacts.getD []).map (fun a => a.parts)
      = [[samplePart "p2"]] ∧
    ([[samplePart "p2"]] : List (List Part))
      ≠ [namedArtifact.parts ++ [samplePart "p2"]] :=
  ⟨rfl, rfl, by decide, by decide⟩

/-- **C2 amended.** Slot resolution follows the precedence (in-bounds index,
else matching nonempty name, else append as new).  When the slot is resolved
by *index* and `append` is set, the existing artifact is kept with the
update's parts concatenated, metadata merged with the update winning on key
conflicts, and `lastChunk`/`description` overwritten when supplied, all
other slots unchanged; when resolved by index without `append`, the update
replaces the slot.  When the slot is resolved by *name*, the update fully
replaces the slot's artifact regardless of `append` (the claimed append
merge does not apply to name-resolved slots). -/
theorem c2_slot_resolution (now : Nat) (data : TaskAndHistory)
    (u : UpdateValue) (h : isArtifactUpdate u = true) :
    (∀ i old, u.index = some i →
        (data.task.artifacts.getD [])[i]? = some old →
      (u.append = some true →
        ((applyUpdateToTaskAndHistory now data u).task.artifacts.getD [])[i]?
            = some (appendArtifactMerge old u) ∧
        (appendArtifactMerge old u).parts = old.parts ++ u.parts.getD [] ∧
        (appendArtifactMerge old u).index = old.index ∧
        (appendArtifactMerge old u).name = old.name ∧
        (∀ m, u.metadata = some m → ∀ k,
          lookupMeta k ((appendArtifactMerge old u).metadata.getD [])
            = (lookupMeta k m).or (lookupMeta k (old.metadata.getD []))) ∧
        (u.metadata = none →
          (appendArtifactMerge old u).metadata = old.metadata) ∧
        (∀ b, u.lastChunk = some b →
          (appendArtifactMerge old u).lastChunk = some b) ∧
        (u.lastChunk = none →
          (appendArtifactMerge old u).lastChunk = old.lastChunk) ∧
        (strTruthy u.description = true →
          (appendArtifactMerge old u).description = u.description) ∧
        (strTruthy u.description = false →
          (appendArtifactMerge old u).description = old.description)) ∧
      (u.append ≠ some true →
        ((applyUpdateToTaskAndHistory now data u).task.artifacts.getD [])[i]?
          = some (artifactOfUpdate u)) ∧
      (∀ j, j ≠ i →
        ((applyUpdateToTaskAndHistory now data u).task.artifacts.getD [])[j]?
          = (data.task.artifacts.getD [])[j]?)) ∧
    (∀ nm j, u.name = some nm → nm ≠ "" →
        (match u.index with
         | some i => (data.task.artifacts.getD [])[i]? = none
         | none => True) →
        List.findIdx? (fun a => a.name == some nm)
          (data.task.artifacts.getD []) = some j →
      ((applyUpdateToTaskAndHistory now data u).task.artifacts.getD [])[j]?
        = some (artifactOfUpdate u)) := by
  obtain ⟨x, hx⟩ := Option.isSome_iff_exists.mp h
  have hs : isTaskStatusUpdate u = false := by
    simp [isTaskStatusUpdate, hx]
  have hred : (applyUpdateToTaskAndHistory now data u).task.artifacts.getD []
      = applyArtifactUpdate (data.task.artifacts.getD []) u := by
    simp [applyUpdateToTaskAndHistory, hs, h]
  rw [hred]
  constructor
  · intro i old hi hgi
    have hlen : i < (data.task.artifacts.getD []).length :=
      (List.getElem?_eq_some.mp hgi).1
    have heq : applyArtifactUpdate (data.task.artifacts.getD []) u =
        if u.append = some true then
          (data.task.artifacts.getD []).set i (appendArtifactMerge old u)
        else (data.task.artifacts.getD []).set i (artifactOfUpdate u) := by
      simp only [applyArtifactUpdate, hi, hgi]
    refine ⟨fun hap => ?_, fun hap => ?_, fun j hj => ?_⟩
    · rw [heq, if_pos hap]
      refine ⟨List.getElem?_set_self hlen, ?_, ?_, ?_, ?_, ?_, ?_, ?_, ?_, ?_⟩
      · rfl
      · rfl
      · rfl
      · intro m hm k
        simp only [appendArtifactMerge, hm, Option.getD_some]
        exact mergeMeta_lookup (old.metadata.getD []) m k
      · intro hm
        simp [appendArtifactMerge, hm]
      · intro b hb
        simp [appendArtifactMerge, hb]
      · intro hb
        simp [appendArtifactMerge, hb]
      · intro hd
        simp [appendArtifactMerge, hd]
      · intro hd
        simp [appendArtifactMerge, hd]
    · rw [heq, if_neg hap]
      exact List.getElem?_set_self hlen
    · rw [heq]
      by_cases hap : u.append = some true
      · rw [if_pos hap]
        exact List.getElem?_set_ne (fun hij => hj hij.symm)
      · rw [if_neg hap]
        exact List.getElem?_set_ne (fun hij => hj hij.symm)
  · intro nm j hnm hne hoob hfi
    have hne2 : (nm != "") = true := by simp [hne]
    have hlen : j < (data.task.artifacts.getD []).length :=
      findIdx?_lt_length _ _ j hfi
    have heq : applyArtifactUpdate (data.task.artifacts.getD []) u =
        (data.task.artifacts.getD []).set j (artifactOfUpdate u) := by
      cases hidx : u.index with
      | some i =>
        rw [hidx] at hoob
        simp only [applyArtifactUpdate, hidx, hoob, applyArtifactByName,
          hnm, hne2, if_true, hfi]
      | none =>
        simp only [applyArtifactUpdate, hidx, applyArtifactByName,
          hnm, hne2, if_true, hfi]
    rw [heq]
    exact List.getElem?_set_self hlen

/-- **C2 witness**: on a concrete task the name-resolved slot is replaced by
the update (even with `append = true`). -/
theorem c2_slot_resolution_witness :
    isArtifactUpdate appendByNameUpdate = true ∧
    ((applyUpdateToTaskAndHistory 0 namedData
        appendByNameUpdate).task.artifacts.getD [])[0]?
      = some (artifactOfUpdate appendByNameUpdate) :=
  ⟨by decide,
    (c2_slot_resolution 0 namedData appendByNameUpdate (by decide)).2
      "a" 0 rfl (by decide) trivial (by decide)⟩

theorem getLast?_cons_of_ne_nil {α : Type} (a : α) (l : List α) (h : l ≠ []) :
    (a :: l).getLast? = l.getLast? := by
  cases l with
  | nil => exact absurd rfl h
  | cons b bs => rw [List.getLast?_cons_cons]

theorem countP_eq_one_of (l : List SSEEvent) (e : SSEEvent)
    (hlast : l.getLast? = some e) (he : eventFinal e = true)
    (hrest : ∀ x ∈ l.dropLast, eventFinal x = false) :
    l.countP eventFinal = 1 := by
  have hne : l ≠ [] := by
    intro hnil
    rw [hnil] at hlast
    exact Option.noConfusion hlast
  have hegl : e = l.getLast hne := by
    rw [List.getLast?_eq_getLast l hne] at hlast
    exact (Option.some.inj hlast).symm
  have hdecomp : l.dropLast ++ [e] = l := by
    rw [hegl]
    exact List.dropLast_append_getLast hne
  calc l.countP eventFinal
      = (l.dropLast ++ [e]).countP eventFinal := by rw [hdecomp]
    _ = l.dropLast.countP eventFinal + List.countP eventFinal [e] :=
        List.countP_append _ _ _
    _ = 0 + 1 := by
        rw [List.countP_eq_zero.mpr (fun x hx => by simp [hrest x hx])]
        simp [List.countP, List.countP.go, he]
    _ = 1 := by omega

/-- Invariants of the streaming for-await loop: if it broke, the event list
ends with a final status event carrying the persisted status and everything
before it is non-final; if it did not break, every event is non-final; every
status event's flag equals the final-eligibility of the state it carries;
every artifact event is non-final. -/
theorem streamLoop_spec (taskId : String) (us : List UpdateValue) :
    ∀ (now : Nat) (data : TaskAndHistory),
      ((streamLoop taskId now data us).broke = true →
        (streamLoop taskId now data us).events.getLast?
          = some (SSEEvent.statusEv taskId
              (streamLoop taskId now data us).data.task.status true) ∧
        finalEligible (streamLoop taskId now data us).data.task.status.state
          = true ∧
        ∀ e ∈ (streamLoop taskId now data us).events.dropLast,
          eventFinal e = false) ∧
      ((streamLoop taskId now data us).broke = false →
        ∀ e ∈ (streamLoop taskId now data us).events, eventFinal e = false) ∧
      (∀ id st f,
        SSEEvent.statusEv id st f ∈ (streamLoop taskId now data us).events →
        f = finalEligible st.state) ∧
      (∀ id a f,
        SSEEvent.artifactEv id a f ∈ (streamLoop taskId now data us).events →
        f = false) := by
  induction us with
  | nil =>
    intro now data
    refine ⟨fun h => by simp [streamLoop] at h, fun _ => ?_, ?_, ?_⟩ <;>
      simp [streamLoop]
  | cons u rest ih =>
    intro now data
    by_cases hsu : isTaskStatusUpdate u = true
    · by_cases hF : finalEligible
          (applyUpdateToTaskAndHistory now data u).task.status.state = true
      · -- status update reaching a final-eligible state: break
        have hred : streamLoop taskId now data (u :: rest) =
            { events := [SSEEvent.statusEv taskId
                (applyUpdateToTaskAndHistory now data u).task.status true],
              data := applyUpdateToTaskAndHistory now data u,
              broke := true, clock := now + 1 } := by
          simp [streamLoop, hsu, hF]
        rw [hred]
        refine ⟨fun _ => ⟨rfl, hF, ?_⟩, fun hb => by simp at hb, ?_, ?_⟩
        · intro e he
          simp at he
        · intro id st f hmem
          simp only [List.mem_singleton] at hmem
          injection hmem with h1 h2 h3
          rw [h2, h3, hF]
        · intro id a f hmem
          simp only [List.mem_singleton] at hmem
          exact SSEEvent.noConfusion hmem
      · -- status update, not final: emit non-final event and continue
        have hred : streamLoop taskId now data (u :: rest) =
            { streamLoop taskId (now + 1)
                (applyUpdateToTaskAndHistory now data u) rest with
              events := SSEEvent.statusEv taskId
                  (applyUpdateToTaskAndHistory now data u).task.status false
                :: (streamLoop taskId (now + 1)
                      (applyUpdateToTaskAndHistory now data u) rest).events } := by
          simp [streamLoop, hsu, hF]
        rw [hred]
        obtain ⟨ihb, ihnb, ihst, ihart⟩ :=
          ih (now + 1) (applyUpdateToTaskAndHistory now data u)
        refine ⟨fun hb => ?_, fun hb => ?_, ?_, ?_⟩
        · obtain ⟨hlast, hel, hrest⟩ := ihb hb
          have hne : (streamLoop taskId (now + 1)
              (applyUpdateToTaskAndHistory now data u) rest).events ≠ [] := by
            intro hnil
            rw [hnil] at hlast
            exact Option.noConfusion hlast
          refine ⟨?_, hel, ?_⟩
          · rw [getLast?_cons_of_ne_nil _ _ hne]
            exact hlast
          · rw [List.dropLast_cons_of_ne_nil hne]
            intro e he
            rcases List.mem_cons.mp he with rfl | he2
            · rfl
            · exact hrest e he2
        · intro e he
          rcases List.mem_cons.mp he with rfl | he2
          · rfl
          · exact ihnb hb e he2
        · intro id st f hmem
          rcases List.mem_cons.mp hmem with heq | hmem2
          · injection heq with h1 h2 h3
            rw [h2, h3]
            cases hF2 : finalEligible
                ((applyUpdateToTaskAndHistory now data u).task.status.state) with
            | true => exact absurd hF2 hF
            | false => rfl
          · exact ihst id st f hmem2
        · intro id a f hmem
          rcases List.mem_cons.mp hmem with heq | hmem2
          · exact SSEEvent.noConfusion heq
          · exact ihart id a f hmem2
    · by_cases hau : isArtifactUpdate u = true
      · -- artifact update: emit non-final artifact event and continue
        have hred : streamLoop taskId now data (u :: rest) =
            { streamLoop taskId (now + 1)
                (applyUpdateToTaskAndHistory now data u) rest with
              events := SSEEvent.artifactEv taskId
                  ((((applyUpdateToTaskAndHistory now data
                        u).task.artifacts.getD []).find? (fun a =>
                    (a.index.isSome && a.index == u.index)
                      || (strTruthy a.name && a.name == u.name))).getD
                    (artifactOfUpdate u)) false
                :: (streamLoop taskId (now + 1)
                      (applyUpdateToTaskAndHistory now data u) rest).events } := by
          simp [streamLoop, hsu, hau]
        rw [hred]
        obtain ⟨ihb, ihnb, ihst, ihart⟩ :=
          ih (now + 1) (applyUpdateToTaskAndHistory now data u)
        refine ⟨fun hb => ?_, fun hb => ?_, ?_, ?_⟩
        · obtain ⟨hlast, hel, hrest⟩ := ihb hb
          have hne : (streamLoop taskId (now + 1)
              (applyUpdateToTaskAndHistory now data u) rest).events ≠ [] := by
            intro hnil
            rw [hnil] at hlast
            exact Option.noConfusion hlast
          refine ⟨?_, hel, ?_⟩
          · rw [getLast?_cons_of_ne_nil _ _ hne]
            exact hlast
          · rw [List.dropLast_cons_of_ne_nil hne]
            intro e he
            rcases List.mem_cons.mp he with rfl | he2
            · rfl
            · exact hrest e he2
        · intro e he
          rcases List.mem_cons.mp he with rfl | he2
          · rfl
          · exact ihnb hb e he2
        · intro id st f hmem
          rcases List.mem_cons.mp hmem with heq | hmem2
          · exact SSEEvent.noConfusion heq
          · exact ihst id st f hmem2
        · intro id a f hmem
          rcases List.mem_cons.mp hmem with heq | hmem2
          · exact congrArg eventFinal heq
          · exact ihart id a f hmem2
      · -- unclassified yield: applied (as a no-op) but no event
        have hred : streamLoop taskId now data (u :: rest) =
            streamLoop taskId (now + 1)
              (applyUpdateToTaskAndHistory now data u) rest := by
          simp [streamLoop, hsu, hau]
        rw [hred]
        exact ih (now + 1) (applyUpdateToTaskAndHistory now data u)

/-- **C3.** Every streaming run emits exactly one event with `final = true`
and it is the last event, carrying the final persisted status (whose state
is always final-eligible); a status event's flag is true iff the updated
state is in {completed, failed, canceled, input-required}; artifact events
are never final; when the handler's sequence ends without a final event
while the state is not final-eligible the engine forces `completed`; a
handler error ends the stream with a single final `failed` status event. -/
theorem c3_stream_single_final (taskId : String) (now : Nat)
    (data0 : TaskAndHistory) (run : HandlerRun) :
    (handleTaskSendSubscribe taskId now data0 run).1.countP eventFinal = 1 ∧
    (handleTaskSendSubscribe taskId now data0 run).1.getLast?
      = some (SSEEvent.statusEv taskId
          (handleTaskSendSubscribe taskId now data0 run).2.task.status true) ∧
    finalEligible
      (handleTaskSendSubscribe taskId now data0 run).2.task.status.state
        = true ∧
    (∀ id st f, SSEEvent.statusEv id st f
        ∈ (handleTaskSendSubscribe taskId now data0 run).1 →
      f = finalEligible st.state) ∧
    (∀ id a f, SSEEvent.artifactEv id a f
        ∈ (handleTaskSendSubscribe taskId now data0 run).1 →
      f = false) ∧
    (run.outcome = HandlerOutcome.done →
      (streamLoop taskId now data0 run.yields).broke = false →
      finalEligible
          (streamLoop taskId now data0 run.yields).data.task.status.state
        = false →
      (handleTaskSendSubscribe taskId now data0 run).2.task.status.state
        = TaskState.completed) ∧
    (∀ errText, run.outcome = HandlerOutcome.errored errText →
      (streamLoop taskId now data0 run.yields).broke = false →
      (handleTaskSendSubscribe taskId now data0 run).2.task.status.state
        = TaskState.failed) := by
  obtain ⟨ihb, ihnb, ihst, ihart⟩ := streamLoop_spec taskId run.yields now data0
  cases hbr : (streamLoop taskId now data0 run.yields).broke with
  | true =>
    have hred : handleTaskSendSubscribe taskId now data0 run =
        ((streamLoop taskId now data0 run.yields).events,
         (streamLoop taskId now data0 run.yields).data) := by
      simp [handleTaskSendSubscribe, hbr]
    obtain ⟨hlast, hel, hrest⟩ := ihb hbr
    rw [hred]
    refine ⟨countP_eq_one_of _ _ hlast rfl hrest, hlast, hel, ihst, ihart,
      ?_, ?_⟩
    · intro _ hb
      exact Bool.noConfusion hb
    · intro _ _ hb
      exact Bool.noConfusion hb
  | false =>
    have hnf := ihnb hbr
    cases hout : run.outcome with
    | done =>
      cases hel : finalEligible
          (streamLoop taskId now data0 run.yields).data.task.status.state with
      | true =>
        have hred : handleTaskSendSubscribe taskId now data0 run =
            ((streamLoop taskId now data0 run.yields).events ++
              [SSEEvent.statusEv taskId
                (streamLoop taskId now data0 run.yields).data.task.status true],
             (streamLoop taskId now data0 run.yields).data) := by
          simp [handleTaskSendSubscribe, hbr, hout, hel]
        rw [hred]
        have hlast : ((streamLoop taskId now data0 run.yields).events ++
            [SSEEvent.statusEv taskId
              (streamLoop taskId now data0 run.yields).data.task.status
              true]).getLast?
            = some (SSEEvent.statusEv taskId
                (streamLoop taskId now data0 run.yields).data.task.status
                true) := by
          rw [List.getLast?_concat]
        refine ⟨countP_eq_one_of _ _ hlast rfl ?_, hlast, hel, ?_, ?_, ?_, ?_⟩
        · rw [List.dropLast_concat]
          exact hnf
        · intro id st f hmem
          rcases List.mem_append.mp hmem with h1 | h1
          · exact ihst id st f h1
          · simp only [List.mem_singleton] at h1
            injection h1 with e1 e2 e3
            rw [e2, e3]
            exact hel.symm
        · intro id a f hmem
          rcases List.mem_append.mp hmem with h1 | h1
          · exact ihart id a f h1
          · simp only [List.mem_singleton] at h1
            exact SSEEvent.noConfusion h1
        · intro _ _ h3
          exact Bool.noConfusion h3
        · intro errText hE
          exact HandlerOutcome.noConfusion hE
      | false =>
        have hstate : (applyUpdateToTaskAndHistory
            (streamLoop taskId now data0 run.yields).clock
            (streamLoop taskId now data0 run.yields).data
            { emptyUpdate with
              state := some TaskState.completed }).task.status.state
            = TaskState.completed := by
          simp [applyUpdateToTaskAndHistory, isTaskStatusUpdate, emptyUpdate]
        have hred : handleTaskSendSubscribe taskId now data0 run =
            ((streamLoop taskId now data0 run.yields).events ++
              [SSEEvent.statusEv taskId
                (applyUpdateToTaskAndHistory
                  (streamLoop taskId now data0 run.yields).clock
                  (streamLoop taskId now data0 run.yields).data
                  { emptyUpdate with
                    state := some TaskState.completed }).task.status true],
             applyUpdateToTaskAndHistory
               (streamLoop taskId now data0 run.yields).clock
               (streamLoop taskId now data0 run.yields).data
               { emptyUpdate with state := some TaskState.completed }) := by
          simp [handleTaskSendSubscribe, hbr, hout, hel]
        rw [hred]
        have hlast : ((streamLoop taskId now data0 run.yields).events ++
            [SSEEvent.statusEv taskId
              (applyUpdateToTaskAndHistory
                (streamLoop taskId now data0 run.yields).clock
                (streamLoop taskId now data0 run.yields).data
                { emptyUpdate with
                  state := some TaskState.completed }).task.status
              true]).getLast?
            = some (SSEEvent.statusEv taskId
                (applyUpdateToTaskAndHistory
                  (streamLoop taskId now data0 run.yields).clock
                  (streamLoop taskId now data0 run.yields).data
                  { emptyUpdate with
                    state := some TaskState.completed }).task.status
                true) := by
          rw [List.getLast?_concat]
        refine ⟨countP_eq_one_of _ _ hlast rfl ?_, hlast, ?_, ?_, ?_, ?_, ?_⟩
        · rw [List.dropLast_concat]
          exact hnf
        · rw [hstate]
          decide
        · intro id st f hmem
          rcases List.mem_append.mp hmem with h1 | h1
          · exact ihst id st f h1
          · simp only [List.mem_singleton] at h1
            injection h1 with e1 e2 e3
            rw [e2, e3, hstate]
            decide
        · intro id a f hmem
          rcases List.mem_append.mp hmem with h1 | h1
          · exact ihart id a f h1
          · simp only [List.mem_singleton] at h1
            exact SSEEvent.noConfusion h1
        · intro _ _ _
          exact hstate
        · intro errText hE
          exact HandlerOutcome.noConfusion hE
    | errored errText =>
      have hstate : (applyUpdateToTaskAndHistory
          (streamLoop taskId now data0 run.yields).clock
          (streamLoop taskId now data0 run.yields).data
          (failedUpdate errText)).task.status.state = TaskState.failed := by
        simp [applyUpdateToTaskAndHistory, isTaskStatusUpdate, failedUpdate,
          emptyUpdate]
      have hred : handleTaskSendSubscribe taskId now data0 run =
          ((streamLoop taskId now data0 run.yields).events ++
            [SSEEvent.statusEv taskId
              (applyUpdateToTaskAndHistory
                (streamLoop taskId now data0 run.yields).clock
                (streamLoop taskId now data0 run.yields).data
                (failedUpdate errText)).task.status true],
           applyUpdateToTaskAndHistory
             (streamLoop taskId now data0 run.yields).clock
             (streamLoop taskId now data0 run.yields).data
             (failedUpdate errText)) := by
        simp [handleTaskSendSubscribe, hbr, hout]
      rw [hred]
      have hlast : ((streamLoop taskId now data0 run.yields).events ++
          [SSEEvent.statusEv taskId
            (applyUpdateToTaskAndHistory
              (streamLoop taskId now data0 run.yields).clock
              (streamLoop taskId now data0 run.yields).data
              (failedUpdate errText)).task.status true]).getLast?
          = some (SSEEvent.statusEv taskId
              (applyUpdateToTaskAndHistory
                (streamLoop taskId now data0 run.yields).clock
                (streamLoop taskId now data0 run.yields).data
                (failedUpdate errText)).task.status true) := by
        rw [List.getLast?_concat]
      refine ⟨countP_eq_one_of _ _ hlast rfl ?_, hlast, ?_, ?_, ?_, ?_, ?_⟩
      · rw [List.dropLast_concat]
        exact hnf
      · rw [hstate]
        decide
      · intro id st f hmem
        rcases List.mem_append.mp hmem with h1 | h1
        · exact ihst id st f h1
        · simp only [List.mem_singleton] at h1
          injection h1 with e1 e2 e3
          rw [e2, e3, hstate]
          decide
      · intro id a f hmem
        rcases List.mem_append.mp hmem with h1 | h1
        · exact ihart id a f h1
        · simp only [List.mem_singleton] at h1
          exact SSEEvent.noConfusion h1
      · intro hE
        exact HandlerOutcome.noConfusion hE
      · intro _ _ _
        exact hstate

/-- A concrete streaming run: one non-final status yield, then completion. -/
def sampleRun : HandlerRun :=
  { yields := [agentStatusUpdate], outcome := HandlerOutcome.done }

/-- **C3 witness**: the concrete run emits exactly one final event. -/
theorem c3_stream_single_final_witness :
    (handleTaskSendSubscribe "t1" 0 sampleData sampleRun).1.countP eventFinal
      = 1 :=
  (c3_stream_single_final "t1" 0 sampleData sampleRun).1

theorem append_colon_inj : ∀ (a b r1 r2 : List Char), ':' ∉ a → ':' ∉ b →
    a ++ ':' :: r1 = b ++ ':' :: r2 → a = b ∧ r1 = r2 := by
  intro a
  induction a with
  | nil =>
    intro b r1 r2 _ hb h
    cases b with
    | nil => simpa using h
    | cons c bs =>
      rw [List.nil_append, List.cons_append] at h
      injection h with h1 _
      exact absurd (h1 ▸ List.mem_cons_self c bs) hb
  | cons c as ih =>
    intro b r1 r2 ha hb h
    cases b with
    | nil =>
      rw [List.nil_append, List.cons_append] at h
      injection h with h1 _
      exact absurd (h1 ▸ List.mem_cons_self c as) ha
    | cons c2 bs =>
      rw [List.cons_append, List.cons_append] at h
      injection h with h1 h2
      obtain ⟨hA, hB⟩ := ih bs r1 r2
        (fun hm => ha (List.mem_cons_of_mem _ hm))
        (fun hm => hb (List.mem_cons_of_mem _ hm)) h2
      exact ⟨by rw [h1, hA], hB⟩

/-- The composite key is injective as long as the session component (null
read as the empty string) contains no colon. -/
theorem createTaskKey_inj (t1 t2 : String) (s1 s2 : Option String)
    (h1 : ':' ∉ (s1.getD "").data) (h2 : ':' ∉ (s2.getD "").data) :
    createTaskKey t1 s1 = createTaskKey t2 s2 ↔
      (t1 = t2 ∧ s1.getD "" = s2.getD "") := by
  constructor
  · intro h
    unfold createTaskKey at h
    have hd : (s1.getD "").data ++ ':' :: t1.data
        = (s2.getD "").data ++ ':' :: t2.data := by
      have hdd := congrArg String.data h
      rw [String.data_append, String.data_append,
        String.data_append, String.data_append] at hdd
      simpa using hdd
    obtain ⟨hA, hB⟩ := append_colon_inj _ _ _ _ h1 h2 hd
    exact ⟨String.ext hB, String.ext hA⟩
  · rintro ⟨rfl, hsession⟩
    unfold createTaskKey
    rw [hsession]

theorem find?_mapSet_ne : ∀ (m : MemStore) (k k2 : String) (v : TaskAndHistory),
    k2 ≠ k →
    List.find? (fun p => p.1 == k2)
      (List.map (fun p => if p.1 == k then (k, v) else p) m)
      = List.find? (fun p => p.1 == k2) m := by
  intro m
  induction m with
  | nil =>
    intro k k2 v _
    rfl
  | cons p ms ih =>
    intro k k2 v hne
    by_cases hp : (p.1 == k) = true
    · have hpk : p.1 = k := by simpa [beq_iff_eq] using hp
      rw [List.map_cons, if_pos hp,
        List.find?_cons_of_neg _ (by simp [beq_iff_eq]; exact fun h => hne h.symm),
        List.find?_cons_of_neg _ (by
          simp [beq_iff_eq, hpk]
          exact fun h => hne h.symm),
        ih k k2 v hne]
    · rw [List.map_cons, if_neg hp]
      by_cases hp2 : (p.1 == k2) = true
      · simp only [List.find?, hp2]
      · rw [List.find?_cons_of_neg _ (by simp [hp2]),
          List.find?_cons_of_neg _ (by simp [hp2]), ih k k2 v hne]

theorem find?_mapSet_self : ∀ (m : MemStore) (k : String) (v : TaskAndHistory),
    List.any m (fun p => p.1 == k) = true →
    List.find? (fun p => p.1 == k)
      (List.map (fun p => if p.1 == k then (k, v) else p) m) = some (k, v) := by
  intro m
  induction m with
  | nil =>
    intro k v hany
    simp at hany
  | cons p ms ih =>
    intro k v hany
    by_cases hp : (p.1 == k) = true
    · rw [List.map_cons, if_pos hp]
      exact List.find?_cons_of_pos _ (by simp)
    · rw [List.map_cons, if_neg hp,
        List.find?_cons_of_neg _ (by simp [hp])]
      apply ih
      simpa [List.any_cons, hp] using hany

/-- `Map.set`/`Map.get` law for the in-memory store: getting any key after a
set yields the new value when the keys coincide and the previous binding
otherwise. -/
theorem storeGet_storeSet (m : MemStore) (k k2 : String) (v : TaskAndHistory) :
    storeGet (storeSet m k v) k2 = if k2 = k then some v else storeGet m k2 := by
  unfold storeGet storeSet
  by_cases hany : List.any m (fun p => p.1 == k) = true
  · rw [if_pos hany]
    by_cases hk : k2 = k
    · subst hk
      rw [if_pos rfl, find?_mapSet_self m k2 v hany]
      rfl
    · rw [if_neg hk, find?_mapSet_ne m k k2 v hk]
  · rw [if_neg hany, List.find?_append]
    by_cases hk : k2 = k
    · subst hk
      have hf : List.find? (fun p => p.1 == k2) m = none := by
        rw [List.find?_eq_none]
        intro p hp
        intro hcontra
        exact hany (List.any_eq_true.mpr ⟨p, hp, hcontra⟩)
      rw [if_pos rfl, hf]
      simp [List.find?, Option.or]
    · have hsingle : List.find? (fun p => p.1 == k2) [(k, v)] = none := by
        have : ((k, v).1 == k2) = false := by
          simp [beq_iff_eq]
          exact fun h => hk h.symm
        simp [List.find?, this]
      rw [if_neg hk, hsingle]
      cases List.find? (fun p => p.1 == k2) m <;> rfl

/-- The data whose colon-bearing task id collides with another pair's key. -/
def collideData : TaskAndHistory :=
  { task := { sampleTask with id := "b:c", sessionId := some "a" },
    history := [] }

/-- **C9 counterexample.** The composite key `sessionId ?? "" + ":" + taskId`
is not injective: saving a task with id `"b:c"` under session `"a"` makes
`loadTask "c" (some "a:b")` — a pair that was never saved — return that
entry, so the store does not keep one entry per (taskId, sessionId) pair. -/
theorem c9_counterexample :
    ("b:c", (some "a" : Option String)) ≠ ("c", (some "a:b" : Option String)) ∧
    loadTask (saveTask [] collideData) "c" (some "a:b") = some collideData :=
  ⟨by decide, by decide⟩

/-- **C9 amended.** The in-memory store keeps at most one entry per composite
key `sessionId ?? "" ++ ":" ++ taskId`, and `loadTask` returns exactly the
entry last saved under the same composite key; distinct (taskId, sessionId)
pairs map to distinct keys provided the session components (null read as
empty) contain no colon — with colon-bearing components, distinct pairs can
share an entry. -/
theorem c9_store_key (t1 t2 : String) (s1 s2 : Option String)
    (h1 : ':' ∉ (s1.getD "").data) (h2 : ':' ∉ (s2.getD "").data) :
    (createTaskKey t1 s1 = createTaskKey t2 s2 ↔
      (t1 = t2 ∧ s1.getD "" = s2.getD "")) ∧
    (∀ (m : MemStore) (d : TaskAndHistory),
      loadTask (saveTask m d) t1 s1 =
        if createTaskKey t1 s1 = createTaskKey d.task.id d.task.sessionId
        then some d else loadTask m t1 s1) := by
  refine ⟨createTaskKey_inj t1 t2 s1 s2 h1 h2, ?_⟩
  intro m d
  unfold loadTask saveTask
  rw [storeGet_storeSet]

/-- **C9 amended witness**: colon-free keys are injective and a save is
observable under exactly its own pair. -/
theorem c9_store_key_witness :
    (':' ∉ ((some "a" : Option String).getD "").data) ∧
    (':' ∉ ((some "b" : Option String).getD "").data) ∧
    ¬(createTaskKey "t1" (some "a") = createTaskKey "t1" (some "b")) :=
  ⟨by decide, by decide,
    fun h => by
      have := ((c9_store_key "t1" "t1" (some "a") (some "b")
        (by decide) (by decide)).1.mp h).2
      exact absurd this (by decide)⟩

end A2A
